import Mathlib

set_option maxRecDepth 1000000

/-!
Verification model of the eden LocalStore (`eden/fs/store/LocalStore.cpp`)
and of the fake_edenfs integration helper
(`eden/integration/helpers/fake_edenfs.cpp`).

Bytes are modelled as natural numbers (each < 256 in well-formed data);
byte strings as `List Nat`.  Machine integers use explicit `% 2 ^ w`.
-/

namespace EdenModel

/-! ## Byte-level helpers -/

/-- 32-bit left rotation, as used by sha-1. -/
def rotl32 (n x : Nat) : Nat :=
  (((x % 2 ^ 32) <<< n) % 2 ^ 32) ||| ((x % 2 ^ 32) >>> (32 - n))

/-- Big-endian serialization of a 64-bit value into 8 bytes
(`folly::Endian::big` on a `uint64_t`, then memcpy). -/
def toBE64 (n : Nat) : List Nat :=
  [n >>> 56 % 256, n >>> 48 % 256, n >>> 40 % 256, n >>> 32 % 256,
   n >>> 24 % 256, n >>> 16 % 256, n >>> 8 % 256, n % 256]

/-- Big-endian interpretation of a byte string as a natural number. -/
def beWord (l : List Nat) : Nat :=
  l.foldl (fun a b => a * 256 + b) 0

/-- Split a byte string into consecutive chunks of `n` bytes
(structural recursion on a fuel counter so that the kernel can reduce it). -/
def chunksOfFuel (n : Nat) : Nat → List Nat → List (List Nat)
  | 0, _ => []
  | fuel + 1, l => if l = [] then [] else l.take n :: chunksOfFuel n fuel (l.drop n)

/-- Split a byte string into consecutive chunks of `n` bytes. -/
def chunksOf (n : Nat) (l : List Nat) : List (List Nat) :=
  chunksOfFuel n l.length l

/-! ## SHA-1

Modelled from the spec: `Hash::sha1` (eden/fs/model/Hash.cpp is not in the
sources at hand); the spec names the standard sha-1 algorithm ("sha-1 over
the raw bytes"), so this is the FIPS 180 sha-1 over byte strings. -/

/-- The sha-1 round function `f_t`. -/
def sha1f (t b c d : Nat) : Nat :=
  if t < 20 then (b &&& c) ||| ((b ^^^ (2 ^ 32 - 1)) &&& d)
  else if t < 40 then b ^^^ c ^^^ d
  else if t < 60 then (b &&& c) ||| (b &&& d) ||| (c &&& d)
  else b ^^^ c ^^^ d

/-- The sha-1 round constant `K_t`. -/
def sha1k (t : Nat) : Nat :=
  if t < 20 then 0x5A827999
  else if t < 40 then 0x6ED9EBA1
  else if t < 60 then 0x8F1BBCDC
  else 0xCA62C1D6

/-- sha-1 message padding: append `0x80`, zero bytes to 56 mod 64, then the
bit length as 8 big-endian bytes. -/
def sha1Pad (msg : List Nat) : List Nat :=
  msg ++ 0x80 :: (List.replicate ((119 - msg.length % 64) % 64) 0 ++ toBE64 (8 * msg.length))

/-- Extend the 16 schedule words (given most-recent-first) by `k` more. -/
def sha1Extend (acc : List Nat) : Nat → List Nat
  | 0 => acc
  | k + 1 =>
      sha1Extend
        (rotl32 1 ((acc.getD 2 0) ^^^ (acc.getD 7 0) ^^^ (acc.getD 13 0) ^^^ (acc.getD 15 0)) :: acc)
        k

/-- The 80-word message schedule of one 64-byte block. -/
def sha1Schedule (block : List Nat) : List Nat :=
  (sha1Extend ((chunksOf 4 block).map beWord).reverse 64).reverse

/-- One sha-1 compression round. -/
def sha1Round (st : Nat × Nat × Nat × Nat × Nat) (tw : Nat × Nat) :
    Nat × Nat × Nat × Nat × Nat :=
  let a := st.1; let b := st.2.1; let c := st.2.2.1; let d := st.2.2.2.1; let e := st.2.2.2.2
  let tmp := (rotl32 5 a + sha1f tw.1 b c d + e + sha1k tw.1 + tw.2) % 2 ^ 32
  (tmp, a, rotl32 30 b, c, d)

/-- Process one 64-byte block. -/
def sha1Block (h : Nat × Nat × Nat × Nat × Nat) (block : List Nat) :
    Nat × Nat × Nat × Nat × Nat :=
  let st := (((List.range 80).zip (sha1Schedule block)).foldl sha1Round h)
  ((h.1 + st.1) % 2 ^ 32, (h.2.1 + st.2.1) % 2 ^ 32, (h.2.2.1 + st.2.2.1) % 2 ^ 32,
   (h.2.2.2.1 + st.2.2.2.1) % 2 ^ 32, (h.2.2.2.2 + st.2.2.2.2) % 2 ^ 32)

/-- sha-1 initial state. -/
def sha1Init : Nat × Nat × Nat × Nat × Nat :=
  (0x67452301, 0xEFCDAB89, 0x98BADCFE, 0x10325476, 0xC3D2E1F0)

/-- A 32-bit word as 4 big-endian bytes. -/
def word2be (n : Nat) : List Nat :=
  [n >>> 24 % 256, n >>> 16 % 256, n >>> 8 % 256, n % 256]

/-- sha-1 of a byte string: a 20-byte digest. -/
def sha1 (msg : List Nat) : List Nat :=
  let st := (chunksOf 64 (sha1Pad msg)).foldl sha1Block sha1Init
  word2be st.1 ++ word2be st.2.1 ++ word2be st.2.2.1 ++ word2be st.2.2.2.1 ++ word2be st.2.2.2.2

end EdenModel

namespace EdenModel

/-! ## Hash (eden/fs/model/Hash)

A fixed-width 20-byte identifier.  `Hash()` default-constructs to all zero
bytes; `Hash::sha1` is the sha-1 digest above. -/

/-- A content identifier: a sequence of bytes (20 in well-formed hashes). -/
structure Hash where
  bytes : List Nat
deriving DecidableEq

/-- The distinguished zero hash (`Hash()` in the source). -/
def Hash.zero : Hash := ⟨List.replicate 20 0⟩

/-- `Hash::RAW_SIZE`. -/
def hashRawSize : Nat := 20

/-- One hexadecimal digit character code. -/
def hexDigitChar (n : Nat) : Char :=
  if n < 10 then Char.ofNat (48 + n) else Char.ofNat (87 + n)

/-- Modelled from the spec: `Hash::toString` — "hex rendering is purely
byte-wise". -/
def hashToString (h : Hash) : String :=
  ⟨(h.bytes.map (fun b => [hexDigitChar (b / 16 % 16), hexDigitChar (b % 16)])).flatten⟩

/-! ## Key spaces and the column-family store

`LocalStore::KeySpace` and the persistence classes from
`kKeySpaceRecords` in LocalStore.cpp.  The underlying key-value engine
(RocksDB/sqlite subclass) is modelled as a finite map per key space, per
spec section 4.1 (`get`/`put`/`clearKeySpace` with single-key atomicity). -/

inductive KeySpace where
  | BlobFamily
  | BlobMetaDataFamily
  | TreeFamily
  | HgProxyHashFamily
  | HgCommitToTreeFamily
deriving DecidableEq

inductive Persistence where
  | Ephemeral
  | Persistent
deriving DecidableEq

/-- The `kKeySpaceRecords` table of LocalStore.cpp, in source order. -/
def kKeySpaceRecords : List (KeySpace × Persistence) :=
  [(KeySpace.BlobFamily, Persistence.Ephemeral),
   (KeySpace.BlobMetaDataFamily, Persistence.Ephemeral),
   (KeySpace.TreeFamily, Persistence.Persistent),
   (KeySpace.HgProxyHashFamily, Persistence.Persistent),
   (KeySpace.HgCommitToTreeFamily, Persistence.Ephemeral)]

/-- The store contents: for each key space, a map from key bytes to value
bytes (`none` = absent; missing keys are not errors). -/
def StoreState := KeySpace → List Nat → Option (List Nat)

/-- A store with no entries. -/
def emptyStore : StoreState := fun _ _ => none

/-- `get(keySpace, key)`: a `StoreResult` is present bytes or absent. -/
def storeGet (s : StoreState) (ks : KeySpace) (key : List Nat) : Option (List Nat) :=
  s ks key

/-- `put(keySpace, key, value)`: atomic single-key write. -/
def storePut (s : StoreState) (ks : KeySpace) (key value : List Nat) : StoreState :=
  fun ks' k' => if ks' = ks ∧ k' = key then some value else s ks' k'

/-- `clearKeySpace(keySpace)`: erase every entry of one key space. -/
def clearKeySpace (s : StoreState) (ks : KeySpace) : StoreState :=
  fun ks' k' => if ks' = ks then none else s ks' k'

/-- `LocalStore::clearCaches`: for each record of `kKeySpaceRecords`,
erase the key space when its persistence class is ephemeral. -/
def clearCaches (s : StoreState) : StoreState :=
  kKeySpaceRecords.foldl
    (fun acc r => if r.2 = Persistence.Ephemeral then clearKeySpace acc r.1 else acc) s

/-- One pending write of a `LocalStore::WriteBatch`. -/
def WriteOp := KeySpace × List Nat × List Nat

/-- `WriteBatch::flush`: apply the batched writes to the store. -/
def applyBatch (s : StoreState) (ops : List WriteOp) : StoreState :=
  ops.foldl (fun acc op => storePut acc op.1 op.2.1 op.2.2) s

/-! ## Blob metadata (`SerializedBlobMetadata`) -/

/-- `BlobMetadata`: content hash and size. -/
structure BlobMetadata where
  sha1 : Hash
  size : Nat
deriving DecidableEq

/-- `SerializedBlobMetadata::serialize`: 8 bytes big-endian size followed
by the 20 hash bytes. -/
def blobMetadataSerialize (m : BlobMetadata) : List Nat :=
  toBE64 m.size ++ m.sha1.bytes

/-- `SerializedBlobMetadata::SIZE` = sizeof(uint64_t) + Hash::RAW_SIZE. -/
def blobMetadataSize : Nat := 8 + hashRawSize

/-- The error message thrown by `SerializedBlobMetadata::parse` on a
record of the wrong size. -/
def blobMetadataErrMsg (blobID : Hash) (n : Nat) : String :=
  "Blob metadata for " ++ hashToString blobID ++ " had unexpected size " ++
    toString n ++ ". Could not deserialize."

/-- `SerializedBlobMetadata::parse`: reject any record that is not exactly
28 bytes, naming the offending key; otherwise read the big-endian size
from the first 8 bytes and the hash from the remaining 20. -/
def blobMetadataParse (blobID : Hash) (bytes : List Nat) : Except String BlobMetadata :=
  if bytes.length ≠ blobMetadataSize then
    Except.error (blobMetadataErrMsg blobID bytes.length)
  else
    Except.ok ⟨⟨bytes.drop 8⟩, beWord (bytes.take 8)⟩

end EdenModel

namespace EdenModel

/-! ## Decimal digits (`folly::to<string>` of a length, and parsing back) -/

/-- Decimal digit characters of `n`, accumulated most-significant first
(structural recursion on a fuel counter so the kernel can reduce it). -/
def natDigitsFuel : Nat → Nat → List Nat → List Nat
  | 0, n, acc => (48 + n % 10) :: acc
  | fuel + 1, n, acc =>
      if n < 10 then (48 + n) :: acc
      else natDigitsFuel fuel (n / 10) ((48 + n % 10) :: acc)

/-- The ASCII decimal rendering of a natural number
(`folly::to<string>(n)`). -/
def natDigits (n : Nat) : List Nat := natDigitsFuel n n []

/-- The value of one ASCII decimal digit, or `none`. -/
def digitVal (c : Nat) : Option Nat :=
  if 48 ≤ c ∧ c ≤ 57 then some (c - 48) else none

/-- Accumulating decimal parse of a digit string. -/
def digitsToNatCore : List Nat → Nat → Option Nat
  | [], acc => some acc
  | c :: cs, acc =>
      match digitVal c with
      | some d => digitsToNatCore cs (10 * acc + d)
      | none => none

/-- Parse an ASCII decimal number; fails on an empty string or a
non-digit character. -/
def digitsToNat (l : List Nat) : Option Nat :=
  if l = [] then none else digitsToNatCore l 0

/-! ## Blobs and git-style blob framing -/

/-- A `Blob`: its hash and the raw content bytes (the IOBuf chain,
flattened). -/
structure Blob where
  hash : Hash
  contents : List Nat
deriving DecidableEq

/-- The git-style blob header written by `WriteBatch::putBlob`:
`"blob " + to<string>(length) + NUL`. -/
def blobHeaderBytes (n : Nat) : List Nat :=
  [98, 108, 111, 98, 32] ++ natDigits n ++ [0]

/-- The framed on-store form of blob contents: the scatter-gather of the
header slice and the content chunks, flattened. -/
def gitBlobFrame (contents : List Nat) : List Nat :=
  blobHeaderBytes contents.length ++ contents

/-- Modelled from the spec: `deserializeGitBlob` (eden/fs/model/git/GitBlob.cpp
is not in the sources at hand) — parse the git-framed form
`"blob <n>\0<bytes>"`, failing with a parse error for malformed framing. -/
def deserializeGitBlob (id : Hash) (data : List Nat) : Except String Blob :=
  match data.dropWhile (fun b => b != 0) with
  | [] => Except.error "git blob parse error: missing NUL separator"
  | _ :: contents =>
      match data.takeWhile (fun b => b != 0) with
      | 98 :: 108 :: 111 :: 98 :: 32 :: digits =>
          match digitsToNat digits with
          | some n =>
              if n = contents.length then Except.ok ⟨id, contents⟩
              else Except.error "git blob parse error: content length mismatch"
          | none => Except.error "git blob parse error: bad length field"
      | _ => Except.error "git blob parse error: bad header"

/-! ## LocalStore operations on blobs -/

/-- `LocalStore::WriteBatch::putBlob`: compute the metadata (sha-1 of the
raw contents and the chain length), frame the body, and batch one write
to `Blob[id]` and one to `BlobMetadata[id]`; return the metadata. -/
def writeBatchPutBlob (id : Hash) (blob : Blob) : List WriteOp × BlobMetadata :=
  let metadata : BlobMetadata := ⟨⟨sha1 blob.contents⟩, blob.contents.length⟩
  ([(KeySpace.BlobFamily, id.bytes, gitBlobFrame blob.contents),
    (KeySpace.BlobMetaDataFamily, id.bytes, blobMetadataSerialize metadata)],
   metadata)

/-- `LocalStore::putBlob`: delegate to the WriteBatch form, flush the
batch, and return the metadata. -/
def putBlob (s : StoreState) (id : Hash) (blob : Blob) : StoreState × BlobMetadata :=
  let batched := writeBatchPutBlob id blob
  (applyBatch s batched.1, batched.2)

/-- `LocalStore::getBlob`: fetch `Blob[id]`; absent resolves to null,
present bytes go through the git blob deserializer. -/
def getBlob (s : StoreState) (id : Hash) : Except String (Option Blob) :=
  match storeGet s KeySpace.BlobFamily id.bytes with
  | none => Except.ok none
  | some data => (deserializeGitBlob id data).map some

/-- `LocalStore::getBlobMetadata`: fetch `BlobMetadata[id]`; absent
resolves to none, present bytes go through `SerializedBlobMetadata::parse`. -/
def getBlobMetadata (s : StoreState) (id : Hash) : Except String (Option BlobMetadata) :=
  match storeGet s KeySpace.BlobMetaDataFamily id.bytes with
  | none => Except.ok none
  | some data => (blobMetadataParse id data).map some

/-! ## Trees -/

/-- One tree entry: git mode bits, name component, child hash. -/
structure TreeEntry where
  mode : Nat
  name : List Nat
  hash : Hash
deriving DecidableEq

/-- A `Tree`: its hash field and its ordered entries. -/
structure Tree where
  hash : Hash
  entries : List TreeEntry
deriving DecidableEq

/-- Octal digit characters of `n` (structural fuel recursion). -/
def octDigitsFuel : Nat → Nat → List Nat → List Nat
  | 0, n, acc => (48 + n % 8) :: acc
  | fuel + 1, n, acc =>
      if n < 8 then (48 + n) :: acc
      else octDigitsFuel fuel (n / 8) ((48 + n % 8) :: acc)

/-- The ASCII octal rendering of a natural number. -/
def octDigits (n : Nat) : List Nat := octDigitsFuel n n []

/-- Modelled from the spec: one entry in git tree serialization
(`GitTreeSerializer::addEntry`; eden/fs/model/git/GitTree.cpp is not in
the sources at hand): `"<octal mode> <name>\0<20 hash bytes>"`. -/
def gitTreeEntryBytes (e : TreeEntry) : List Nat :=
  octDigits e.mode ++ [32] ++ e.name ++ [0] ++ e.hash.bytes

/-- Modelled from the spec: git tree serialization — the concatenated
entries with the header `"tree <len>\0"` prepended at top level
(`GitTreeSerializer::finalize`).  It does not depend on the hash
field of the tree. -/
def gitTreeSerialize (entries : List TreeEntry) : List Nat :=
  let body := (entries.map gitTreeEntryBytes).flatten
  [116, 114, 101, 101, 32] ++ natDigits body.length ++ [0] ++ body

/-- `LocalStore::serializeTree`: serialize the entries; the key is the
hash field of the tree unless that is the zero hash, in which case it is the
sha-1 of the serialized form. -/
def serializeTree (t : Tree) : Hash × List Nat :=
  let treeBuf := gitTreeSerialize t.entries
  let id := if t.hash = Hash.zero then (⟨sha1 treeBuf⟩ : Hash) else t.hash
  (id, treeBuf)

/-- `LocalStore::putTree`: serialize, write the bytes to `Tree[key]`, and
return the key used. -/
def putTree (s : StoreState) (t : Tree) : StoreState × Hash :=
  let serialized := serializeTree t
  (storePut s KeySpace.TreeFamily serialized.1.bytes serialized.2, serialized.1)

end EdenModel

namespace EdenModel

/-! ## fake_edenfs (eden/integration/helpers/fake_edenfs.cpp) -/

/-- The fb303 `fb_status` service-status enumeration. -/
inductive FbStatus where
  | DEAD
  | STARTING
  | ALIVE
  | STOPPING
  | STOPPED
  | WARNING
deriving DecidableEq

/-- `FakeEdenServer` state: the `honorStop_` flag and whether
`terminateLoopSoon` has been requested on the event base. -/
structure FakeEdenServer where
  honorStop : Bool
  terminated : Bool
deriving DecidableEq

/-- `FakeEdenServer::stop`: when `honorStop_` is unset, log and ignore the
request; otherwise terminate the event loop. -/
def FakeEdenServer.stop (s : FakeEdenServer) (_reason : String) : FakeEdenServer :=
  if s.honorStop then { s with terminated := true } else s

/-- `FakeEdenServer::setHonorStop`. -/
def FakeEdenServer.setHonorStop (s : FakeEdenServer) (b : Bool) : FakeEdenServer :=
  { s with honorStop := b }

/-- `FakeEdenServiceHandler::shutdown`. -/
def shutdownCall (s : FakeEdenServer) : FakeEdenServer :=
  s.stop "received shutdown() thrift request"

/-- `FakeEdenServiceHandler::initiateShutdown`. -/
def initiateShutdownCall (s : FakeEdenServer) (reason : String) : FakeEdenServer :=
  s.stop ("received initiateShutdown() thrift requested: " ++ reason)

/-- Signal number of SIGINT. -/
def sigintNum : Nat := 2

/-- Signal number of SIGTERM. -/
def sigtermNum : Nat := 15

/-- `SignalHandler::signalReceived`: stop on SIGINT or SIGTERM, log and
ignore any other signal. -/
def signalReceived (s : FakeEdenServer) (sig : Nat) : FakeEdenServer :=
  if sig = sigintNum then s.stop "received SIGINT"
  else if sig = sigtermNum then s.stop "received SIGTERM"
  else s

/-- `FakeEdenServiceHandler::getStatus`: report the `status_` of the handler. -/
def getStatus (status : FbStatus) : FbStatus := status

/-- The message of the `std::invalid_argument` thrown by the `badOption`
lambda in `FakeEdenServiceHandler::setOption`. -/
def badOptionMsg (name value : String) : String :=
  "invalid value for " ++ name ++ " setting: \"" ++ value ++ "\""

/-- `FakeEdenServiceHandler::setOption`, parameterized by the boolean
parser (`folly::tryTo<bool>`, a folly library routine; `none` models a
parse failure).  The result pairs the server state with the `status_` of
the handler; an error leaves both with the caller unchanged. -/
def setOption (tryToBool : String → Option Bool) (name value : String)
    (server : FakeEdenServer) (status : FbStatus) :
    Except String (FakeEdenServer × FbStatus) :=
  if name = "honor_stop" then
    match tryToBool value with
    | none => Except.error (badOptionMsg name value)
    | some b => Except.ok (server.setHonorStop b, status)
  else if name = "status" then
    if value = "starting" then Except.ok (server, FbStatus.STARTING)
    else if value = "alive" then Except.ok (server, FbStatus.ALIVE)
    else if value = "stopping" then Except.ok (server, FbStatus.STOPPING)
    else Except.error (badOptionMsg name value)
  else Except.ok (server, status)

/-- errno value ENOENT. -/
def enoentNum : Nat := 2

/-- `main` of fake_edenfs, as a function of its environment, returning the
process exit code.  `unlinkErrno` is the outcome of `unlink` on the
socket path (`none` = success, `some e` = failure with errno `e`).
Modelled from the spec for the part outside the sources at hand:
`StartupLogger::exitUnsuccessfully(N, ...)` makes the process exit with
code `N`, and a server that runs to loop termination reaches `return 0`. -/
def fakeMain (edenDirFlag : String) (lockAcquired : Bool)
    (unlinkErrno : Option Nat) : Nat :=
  if edenDirFlag = "" then 1
  else if ¬ lockAcquired then 1
  else
    match unlinkErrno with
    | some e => if e ≠ enoentNum then 1 else 0
    | none => 0

end EdenModel

namespace EdenModel

theorem sha1_length (msg : List Nat) : (sha1 msg).length = 20 := by
  simp [sha1, word2be]

theorem beWord_toBE64 (n : Nat) (h : n < 2 ^ 64) : beWord (toBE64 n) = n := by
  simp [beWord, toBE64, Nat.shiftRight_eq_div_pow]
  omega

theorem toBE64_length (n : Nat) : (toBE64 n).length = 8 := by
  simp [toBE64]

theorem natDigitsFuel_append (fuel n : Nat) (acc : List Nat) :
    natDigitsFuel fuel n acc = natDigitsFuel fuel n [] ++ acc := by
  induction fuel generalizing n acc with
  | zero => simp [natDigitsFuel]
  | succ fuel ih =>
      by_cases h : n < 10
      · simp [natDigitsFuel, h]
      · rw [natDigitsFuel, if_neg h, natDigitsFuel, if_neg h,
          ih (n / 10) ((48 + n % 10) :: acc), ih (n / 10) [48 + n % 10]]
        simp

theorem natDigitsFuel_mem (d fuel : Nat) :
    ∀ n acc, d ∈ natDigitsFuel fuel n acc → d ∈ acc ∨ (48 ≤ d ∧ d ≤ 57) := by
  induction fuel with
  | zero =>
      intro n acc hd
      simp [natDigitsFuel] at hd
      rcases hd with h | h
      · right; omega
      · exact Or.inl h
  | succ fuel ih =>
      intro n acc hd
      by_cases h : n < 10
      · simp [natDigitsFuel, h] at hd
        rcases hd with h' | h'
        · right; omega
        · exact Or.inl h'
      · rw [natDigitsFuel, if_neg h] at hd
        rcases ih _ _ hd with h' | h'
        · rcases List.mem_cons.mp h' with h'' | h''
          · right; omega
          · exact Or.inl h''
        · exact Or.inr h'

theorem natDigits_digit (n d : Nat) (hd : d ∈ natDigits n) : 48 ≤ d ∧ d ≤ 57 := by
  rcases natDigitsFuel_mem d n n [] hd with h | h
  · simp at h
  · exact h

theorem natDigitsFuel_len (fuel : Nat) :
    ∀ n acc, acc.length < (natDigitsFuel fuel n acc).length := by
  induction fuel with
  | zero => intro n acc; simp [natDigitsFuel]
  | succ fuel ih =>
      intro n acc
      by_cases h : n < 10
      · simp [natDigitsFuel, h]
      · rw [natDigitsFuel, if_neg h]
        have := ih (n / 10) ((48 + n % 10) :: acc)
        simp at this
        omega

theorem natDigits_ne_nil (n : Nat) : natDigits n ≠ [] := by
  have h := natDigitsFuel_len n n []
  intro he
  rw [natDigits] at he
  rw [he] at h
  simp at h

theorem digitsToNatCore_append (xs ys : List Nat) (a : Nat) :
    digitsToNatCore (xs ++ ys) a =
      (digitsToNatCore xs a).bind (fun a' => digitsToNatCore ys a') := by
  induction xs generalizing a with
  | nil => simp [digitsToNatCore]
  | cons c cs ih =>
      simp only [List.cons_append, digitsToNatCore]
      cases digitVal c with
      | none => simp
      | some d => simp [ih]

theorem digitsToNatCore_natDigitsFuel (fuel : Nat) :
    ∀ n a, n < 10 ^ (fuel + 1) →
      digitsToNatCore (natDigitsFuel fuel n []) a =
        some (a * 10 ^ (natDigitsFuel fuel n []).length + n) := by
  induction fuel with
  | zero =>
      intro n a hn
      have hn' : n < 10 := by simpa using hn
      have hdig : digitVal (48 + n) = some n := by
        simp [digitVal]
        omega
      simp [natDigitsFuel, Nat.mod_eq_of_lt hn', digitsToNatCore, hdig]
      omega
  | succ fuel ih =>
      intro n a hn
      by_cases h : n < 10
      · have hdig : digitVal (48 + n) = some n := by
          simp [digitVal]
          omega
        simp [natDigitsFuel, h, digitsToNatCore, hdig]
        omega
      · rw [natDigitsFuel, if_neg h, natDigitsFuel_append]
        have hdiv : n / 10 < 10 ^ (fuel + 1) := by
          rw [Nat.div_lt_iff_lt_mul (by norm_num)]
          calc n < 10 ^ (fuel + 2) := hn
            _ = 10 ^ (fuel + 1) * 10 := by ring
        rw [digitsToNatCore_append, ih (n / 10) a hdiv]
        have hdig : digitVal (48 + n % 10) = some (n % 10) := by
          simp [digitVal]
          omega
        simp only [Option.bind_some, digitsToNatCore, hdig,
          List.length_append, List.length_cons, List.length_nil]
        have h1 : 10 * (n / 10) + n % 10 = n := by omega
        generalize (natDigitsFuel fuel (n / 10) []).length = k
        have key : 10 * (a * 10 ^ k + n / 10) + n % 10 = a * 10 ^ (k + (0 + 1)) + n := by
          calc 10 * (a * 10 ^ k + n / 10) + n % 10
              = a * 10 ^ k * 10 + (10 * (n / 10) + n % 10) := by ring
            _ = a * 10 ^ k * 10 + n := by rw [h1]
            _ = a * 10 ^ (k + (0 + 1)) + n := by ring
        show some (10 * (a * 10 ^ k + n / 10) + n % 10) = some (a * 10 ^ (k + (0 + 1)) + n)
        rw [key]

theorem digitsToNat_natDigits (n : Nat) : digitsToNat (natDigits n) = some n := by
  have hn : n < 10 ^ (n + 1) := by
    calc n < 2 ^ n := Nat.lt_two_pow n
      _ ≤ 10 ^ n := Nat.pow_le_pow_left (by norm_num) n
      _ ≤ 10 ^ (n + 1) := Nat.pow_le_pow_right (by norm_num) (Nat.le_succ n)
  have h := digitsToNatCore_natDigitsFuel n n 0 hn
  rw [digitsToNat, if_neg (natDigits_ne_nil n), natDigits]
  simpa using h

end EdenModel

namespace EdenModel

theorem takeWhile_append_zero (l1 l2 : List Nat) (h : ∀ x ∈ l1, x ≠ 0) :
    (l1 ++ 0 :: l2).takeWhile (fun b => b != 0) = l1 ∧
    (l1 ++ 0 :: l2).dropWhile (fun b => b != 0) = 0 :: l2 := by
  induction l1 with
  | nil => simp [List.takeWhile, List.dropWhile]
  | cons x xs ih =>
      have hx : x ≠ 0 := h x (List.mem_cons_self x xs)
      have hxs : ∀ y ∈ xs, y ≠ 0 := fun y hy => h y (List.mem_cons_of_mem x hy)
      have hb : (x != 0) = true := by simpa using hx
      constructor
      · simp only [List.cons_append, List.takeWhile_cons, hb]
        simp [(ih hxs).1]
      · simp only [List.cons_append, List.dropWhile_cons, hb]
        simp [(ih hxs).2]

theorem blobHeader_no_zero (n : Nat) :
    ∀ x ∈ [98, 108, 111, 98, 32] ++ natDigits n, x ≠ 0 := by
  intro x hx
  rcases List.mem_append.mp hx with h | h
  · simp at h
    omega
  · have := natDigits_digit n x h
    omega

theorem deserializeGitBlob_frame (id : Hash) (contents : List Nat) :
    deserializeGitBlob id (gitBlobFrame contents) = Except.ok ⟨id, contents⟩ := by
  have hassoc : gitBlobFrame contents =
      ([98, 108, 111, 98, 32] ++ natDigits contents.length) ++ 0 :: contents := by
    simp [gitBlobFrame, blobHeaderBytes]
  have hsplit := takeWhile_append_zero
    ([98, 108, 111, 98, 32] ++ natDigits contents.length) contents
    (blobHeader_no_zero contents.length)
  rw [deserializeGitBlob, hassoc, hsplit.2, hsplit.1]
  simp [digitsToNat_natDigits]

end EdenModel

namespace EdenModel

theorem toBE64_append_take (n : Nat) (rest : List Nat) :
    (toBE64 n ++ rest).take 8 = toBE64 n := rfl

theorem toBE64_append_drop (n : Nat) (rest : List Nat) :
    (toBE64 n ++ rest).drop 8 = rest := rfl

theorem blobMetadataSerialize_length (m : BlobMetadata)
    (h : m.sha1.bytes.length = 20) : (blobMetadataSerialize m).length = 28 := by
  simp [blobMetadataSerialize, toBE64, h]

theorem blobMetadataParse_serialize (id : Hash) (m : BlobMetadata)
    (hh : m.sha1.bytes.length = 20) (hs : m.size < 2 ^ 64) :
    blobMetadataParse id (blobMetadataSerialize m) = Except.ok m := by
  rw [blobMetadataParse, if_neg (by
    rw [blobMetadataSerialize_length m hh]
    simp [blobMetadataSize, hashRawSize])]
  rw [blobMetadataSerialize, toBE64_append_take, toBE64_append_drop,
    beWord_toBE64 m.size hs]

end EdenModel

namespace EdenModel

/-- Claim C1: after `putBlob(id, b)` the store maps `Blob[id]` to the
git-framed bytes of `b` and `BlobMetadata[id]` to the record (sha-1 of the
raw contents, total length); `getBlob(id)` returns a blob byte-equal to
`b`, `getBlobMetadata(id)` returns that record, both writes happen in one
write batch of two puts, and `putBlob` returns the metadata. -/
theorem putBlob_spec (s : StoreState) (id : Hash) (b : Blob)
    (hlen : b.contents.length < 2 ^ 64) :
    storeGet (putBlob s id b).1 KeySpace.BlobFamily id.bytes
        = some (gitBlobFrame b.contents) ∧
    storeGet (putBlob s id b).1 KeySpace.BlobMetaDataFamily id.bytes
        = some (blobMetadataSerialize ⟨⟨sha1 b.contents⟩, b.contents.length⟩) ∧
    (putBlob s id b).2 = ⟨⟨sha1 b.contents⟩, b.contents.length⟩ ∧
    getBlob (putBlob s id b).1 id = Except.ok (some ⟨id, b.contents⟩) ∧
    getBlobMetadata (putBlob s id b).1 id
        = Except.ok (some ⟨⟨sha1 b.contents⟩, b.contents.length⟩) ∧
    (putBlob s id b).1 = applyBatch s (writeBatchPutBlob id b).1 ∧
    (writeBatchPutBlob id b).1.length = 2 := by
  have hfst : (putBlob s id b).1 =
      storePut (storePut s KeySpace.BlobFamily id.bytes (gitBlobFrame b.contents))
        KeySpace.BlobMetaDataFamily id.bytes
        (blobMetadataSerialize ⟨⟨sha1 b.contents⟩, b.contents.length⟩) := rfl
  have h1 : storeGet (putBlob s id b).1 KeySpace.BlobFamily id.bytes
      = some (gitBlobFrame b.contents) := by
    rw [hfst]
    simp [storeGet, storePut]
  have h2 : storeGet (putBlob s id b).1 KeySpace.BlobMetaDataFamily id.bytes
      = some (blobMetadataSerialize ⟨⟨sha1 b.contents⟩, b.contents.length⟩) := by
    rw [hfst]
    simp [storeGet, storePut]
  refine ⟨h1, h2, rfl, ?_, ?_, rfl, rfl⟩
  · rw [getBlob, h1]
    show (deserializeGitBlob id (gitBlobFrame b.contents)).map some
      = Except.ok (some ⟨id, b.contents⟩)
    rw [deserializeGitBlob_frame]
    rfl
  · rw [getBlobMetadata, h2]
    have hp := blobMetadataParse_serialize id ⟨⟨sha1 b.contents⟩, b.contents.length⟩
      (by simpa using sha1_length b.contents) (by simpa using hlen)
    show (blobMetadataParse id
        (blobMetadataSerialize ⟨⟨sha1 b.contents⟩, b.contents.length⟩)).map some
      = Except.ok (some ⟨⟨sha1 b.contents⟩, b.contents.length⟩)
    rw [hp]
    rfl

/-- Witness for C1 at a concrete input. -/
theorem putBlob_spec_witness :
    (⟨Hash.zero, [1, 2, 3]⟩ : Blob).contents.length < 2 ^ 64 ∧
    getBlob (putBlob emptyStore Hash.zero ⟨Hash.zero, [1, 2, 3]⟩).1 Hash.zero
      = Except.ok (some ⟨Hash.zero, [1, 2, 3]⟩) :=
  ⟨by decide,
   (putBlob_spec emptyStore Hash.zero ⟨Hash.zero, [1, 2, 3]⟩ (by decide)).2.2.2.1⟩

end EdenModel

namespace EdenModel

/-- Claim C2 (counterexample): the "if and only if" fails.  A tree whose
stated (nonzero) hash field happens to equal the sha-1 of its serialized
form is stored under a key that IS the sha-1 of the serialized form, yet
its hash field is not the zero hash. -/
theorem putTree_key_iff_cex :
    ¬ (((putTree emptyStore ⟨⟨sha1 (gitTreeSerialize [])⟩, []⟩).2.bytes
          = sha1 (serializeTree (⟨⟨sha1 (gitTreeSerialize [])⟩, []⟩ : Tree)).2)
        ↔ (⟨⟨sha1 (gitTreeSerialize [])⟩, []⟩ : Tree).hash = Hash.zero) := by
  decide

/-- Claim C2 (amended): `putTree(t)` serializes `t` in git format, stores
the serialized bytes in the `Tree` key space under the returned key; the
key is the sha-1 of the serialized form when the hash field of `t` is the
zero hash and is the stated hash of `t` verbatim otherwise (the two coincide when
the stated hash happens to equal that sha-1). -/
theorem putTree_key_spec (s : StoreState) (t : Tree) :
    (putTree s t).2
        = (if t.hash = Hash.zero then (⟨sha1 (gitTreeSerialize t.entries)⟩ : Hash)
           else t.hash) ∧
    storeGet (putTree s t).1 KeySpace.TreeFamily (putTree s t).2.bytes
        = some (gitTreeSerialize t.entries) := by
  constructor
  · rfl
  · simp [putTree, serializeTree, storeGet, storePut]

end EdenModel

namespace EdenModel

/-- Claim C3 (counterexample): after putting the 4-byte blob
`DE AD BE EF` (keyed by the sha-1 of its git-framed form), the stored
BlobMetadata value is NOT the 8-byte size followed by the sha-1 of the
git-framed form `"blob 4\0\xDE\xAD\xBE\xEF"`: the code stores the sha-1
of the raw 4 content bytes instead. -/
theorem putBlob_deadbeef_cex :
    storeGet
        (putBlob emptyStore ⟨sha1 (gitBlobFrame [222, 173, 190, 239])⟩
          ⟨⟨sha1 (gitBlobFrame [222, 173, 190, 239])⟩, [222, 173, 190, 239]⟩).1
        KeySpace.BlobMetaDataFamily (sha1 (gitBlobFrame [222, 173, 190, 239]))
      ≠ some ([0, 0, 0, 0, 0, 0, 0, 4] ++ sha1 (gitBlobFrame [222, 173, 190, 239])) := by
  decide

/-- Claim C3 (amended): after putting the 4-byte blob `DE AD BE EF` keyed
by the sha-1 of its git-framed form, the BlobMetadata key space contains
exactly one record, the 28 bytes `00 00 00 00 00 00 00 04` followed by
the sha-1 of the RAW contents `DE AD BE EF`, and reading the `Blob` key
space for that key returns the 11-byte framed body `"blob 4\0\xDE\xAD\xBE\xEF"`. -/
theorem putBlob_deadbeef_spec :
    (∀ k, storeGet
        (putBlob emptyStore ⟨sha1 (gitBlobFrame [222, 173, 190, 239])⟩
          ⟨⟨sha1 (gitBlobFrame [222, 173, 190, 239])⟩, [222, 173, 190, 239]⟩).1
        KeySpace.BlobMetaDataFamily k
      = if k = sha1 (gitBlobFrame [222, 173, 190, 239]) then
          some ([0, 0, 0, 0, 0, 0, 0, 4] ++ sha1 [222, 173, 190, 239])
        else none) ∧
    ([0, 0, 0, 0, 0, 0, 0, 4] ++ sha1 [222, 173, 190, 239]).length = 28 ∧
    storeGet
        (putBlob emptyStore ⟨sha1 (gitBlobFrame [222, 173, 190, 239])⟩
          ⟨⟨sha1 (gitBlobFrame [222, 173, 190, 239])⟩, [222, 173, 190, 239]⟩).1
        KeySpace.BlobFamily (sha1 (gitBlobFrame [222, 173, 190, 239]))
      = some (gitBlobFrame [222, 173, 190, 239]) ∧
    gitBlobFrame [222, 173, 190, 239]
      = [98, 108, 111, 98, 32, 52, 0, 222, 173, 190, 239] ∧
    (gitBlobFrame [222, 173, 190, 239]).length = 11 := by
  refine ⟨?_, by decide, by decide, by decide, by decide⟩
  intro k
  by_cases hk : k = sha1 (gitBlobFrame [222, 173, 190, 239])
  · subst hk
    decide
  · simp only [putBlob, writeBatchPutBlob, applyBatch, List.foldl_cons, List.foldl_nil,
      storeGet, storePut, emptyStore, if_neg hk]
    simp [hk]

end EdenModel

namespace EdenModel

/-- Claim C4: the persisted BlobMetadata record is exactly 28 bytes
(8-byte big-endian size, then the 20-byte content hash);
`getBlobMetadata` parses a present 28-byte record back into the
(hash, size) pair, and a present record of any other length fails with a
typed parse error whose message names the hash of the offending key. -/
theorem blobMetadata_record_spec (s : StoreState) (id h : Hash) (size : Nat)
    (bytes : List Nat) (hh : h.bytes.length = 20) (hs : size < 2 ^ 64)
    (hb : bytes.length ≠ 28) :
    (blobMetadataSerialize ⟨h, size⟩).length = 28 ∧
    blobMetadataSerialize ⟨h, size⟩ = toBE64 size ++ h.bytes ∧
    blobMetadataParse id (blobMetadataSerialize ⟨h, size⟩) = Except.ok ⟨h, size⟩ ∧
    getBlobMetadata
        (storePut s KeySpace.BlobMetaDataFamily id.bytes (blobMetadataSerialize ⟨h, size⟩)) id
      = Except.ok (some ⟨h, size⟩) ∧
    blobMetadataParse id bytes = Except.error (blobMetadataErrMsg id bytes.length) ∧
    getBlobMetadata (storePut s KeySpace.BlobMetaDataFamily id.bytes bytes) id
      = Except.error (blobMetadataErrMsg id bytes.length) ∧
    (∃ pre post, (blobMetadataErrMsg id bytes.length).data
      = pre ++ (hashToString id).data ++ post) := by
  have hser := blobMetadataSerialize_length ⟨h, size⟩ (by simpa using hh)
  have hpar := blobMetadataParse_serialize id ⟨h, size⟩ (by simpa using hh) (by simpa using hs)
  have hget : storeGet
      (storePut s KeySpace.BlobMetaDataFamily id.bytes (blobMetadataSerialize ⟨h, size⟩))
      KeySpace.BlobMetaDataFamily id.bytes = some (blobMetadataSerialize ⟨h, size⟩) := by
    simp [storeGet, storePut]
  have hgetb : storeGet (storePut s KeySpace.BlobMetaDataFamily id.bytes bytes)
      KeySpace.BlobMetaDataFamily id.bytes = some bytes := by
    simp [storeGet, storePut]
  have herr : blobMetadataParse id bytes = Except.error (blobMetadataErrMsg id bytes.length) := by
    rw [blobMetadataParse, if_pos (by simpa [blobMetadataSize, hashRawSize] using hb)]
  refine ⟨hser, rfl, hpar, ?_, herr, ?_, ?_⟩
  · rw [getBlobMetadata, hget]
    show (blobMetadataParse id (blobMetadataSerialize ⟨h, size⟩)).map some
      = Except.ok (some ⟨h, size⟩)
    rw [hpar]
    rfl
  · rw [getBlobMetadata, hgetb]
    show (blobMetadataParse id bytes).map some
      = Except.error (blobMetadataErrMsg id bytes.length)
    rw [herr]
    rfl
  · refine ⟨("Blob metadata for ").data,
      (" had unexpected size " ++ toString bytes.length ++ ". Could not deserialize.").data, ?_⟩
    simp [blobMetadataErrMsg]

/-- Witness for C4 at a concrete input. -/
theorem blobMetadata_record_spec_witness :
    ((Hash.zero.bytes.length = 20) ∧ 5 < 2 ^ 64 ∧ ([1, 2, 3] : List Nat).length ≠ 28) ∧
    blobMetadataParse Hash.zero (blobMetadataSerialize ⟨Hash.zero, 5⟩)
      = Except.ok ⟨Hash.zero, 5⟩ :=
  ⟨⟨by decide, by decide, by decide⟩,
   (blobMetadata_record_spec emptyStore Hash.zero Hash.zero 5 [1, 2, 3]
      (by decide) (by decide) (by decide)).2.2.1⟩

/-- Claim C5: `clearCaches` erases exactly the ephemeral key spaces
`Blob`, `BlobMetadata` and `HgCommitToTree`, and leaves the persistent
key spaces `Tree` and `HgProxyHash` untouched. -/
theorem clearCaches_spec (s : StoreState) (k : List Nat) :
    storeGet (clearCaches s) KeySpace.BlobFamily k = none ∧
    storeGet (clearCaches s) KeySpace.BlobMetaDataFamily k = none ∧
    storeGet (clearCaches s) KeySpace.HgCommitToTreeFamily k = none ∧
    storeGet (clearCaches s) KeySpace.TreeFamily k
      = storeGet s KeySpace.TreeFamily k ∧
    storeGet (clearCaches s) KeySpace.HgProxyHashFamily k
      = storeGet s KeySpace.HgProxyHashFamily k := by
  simp [clearCaches, kKeySpaceRecords, clearKeySpace, storeGet]

end EdenModel

namespace EdenModel

/-- Claim C6: a shutdown request (the `shutdown` or `initiateShutdown`
management call, or a SIGINT/SIGTERM signal) terminates the event loop if
and only if `honor_stop` is true at that moment; when `honor_stop` is
false the request is ignored and the server state is unchanged. -/
theorem shutdown_honor_stop_spec (s : FakeEdenServer) (reason : String) (sig : Nat)
    (hterm : s.terminated = false) (hsig : sig = sigintNum ∨ sig = sigtermNum) :
    ((shutdownCall s).terminated = true ↔ s.honorStop = true) ∧
    ((initiateShutdownCall s reason).terminated = true ↔ s.honorStop = true) ∧
    ((signalReceived s sig).terminated = true ↔ s.honorStop = true) ∧
    (s.honorStop = false →
      shutdownCall s = s ∧ initiateShutdownCall s reason = s ∧ signalReceived s sig = s) := by
  obtain ⟨honor, term⟩ := s
  simp only at hterm
  subst hterm
  rcases hsig with h | h
  all_goals subst h
  all_goals cases honor
  all_goals simp [shutdownCall, initiateShutdownCall, signalReceived,
    FakeEdenServer.stop, sigintNum, sigtermNum]

/-- Witness for C6 at a concrete input. -/
theorem shutdown_honor_stop_spec_witness :
    ((⟨true, false⟩ : FakeEdenServer).terminated = false ∧
      (2 = sigintNum ∨ 2 = sigtermNum)) ∧
    ((shutdownCall ⟨true, false⟩).terminated = true ↔
      (⟨true, false⟩ : FakeEdenServer).honorStop = true) :=
  ⟨⟨by decide, Or.inl (by decide)⟩,
   (shutdown_honor_stop_spec ⟨true, false⟩ "test" 2 (by decide) (Or.inl (by decide))).1⟩

/-- Claim C7: `setOption("status", v)` makes `getStatus` report STARTING,
ALIVE or STOPPING for v = "starting"/"alive"/"stopping", fails with an
invalid-argument error for any other v (so the status held by the caller
is left unchanged), and `setOption("honor_stop", v)` fails with invalid-argument
when v does not parse as a boolean. -/
theorem setOption_status_honor_spec (p : String → Option Bool)
    (server : FakeEdenServer) (st : FbStatus) (v w : String)
    (hv : v ≠ "starting" ∧ v ≠ "alive" ∧ v ≠ "stopping") (hw : p w = none) :
    (setOption p "status" "starting" server st).map (fun r => getStatus r.2)
      = Except.ok FbStatus.STARTING ∧
    (setOption p "status" "alive" server st).map (fun r => getStatus r.2)
      = Except.ok FbStatus.ALIVE ∧
    (setOption p "status" "stopping" server st).map (fun r => getStatus r.2)
      = Except.ok FbStatus.STOPPING ∧
    (setOption p "status" "starting" server st).map (fun r => r.1)
      = Except.ok server ∧
    setOption p "status" v server st = Except.error (badOptionMsg "status" v) ∧
    setOption p "honor_stop" w server st = Except.error (badOptionMsg "honor_stop" w) := by
  refine ⟨rfl, rfl, rfl, rfl, ?_, ?_⟩
  · simp [setOption, hv.1, hv.2.1, hv.2.2]
  · simp [setOption, hw]

/-- Witness for C7 at a concrete input. -/
theorem setOption_status_honor_spec_witness :
    (("weird" ≠ "starting" ∧ "weird" ≠ "alive" ∧ "weird" ≠ "stopping") ∧
      ((fun _ => (none : Option Bool)) "x" = none)) ∧
    setOption (fun _ => none) "status" "weird" ⟨true, false⟩ FbStatus.ALIVE
      = Except.error (badOptionMsg "status" "weird") :=
  ⟨⟨⟨by decide, by decide, by decide⟩, rfl⟩,
   (setOption_status_honor_spec (fun _ => none) ⟨true, false⟩ FbStatus.ALIVE "weird" "x"
      ⟨by decide, by decide, by decide⟩ rfl).2.2.2.2.1⟩

/-- Claim C9: for every option name other than "honor_stop" and "status",
`setOption` returns successfully without an error and without changing
the honor-stop flag of the server or the reported status, for every value. -/
theorem setOption_unknown_option_noop (p : String → Option Bool)
    (name value : String) (server : FakeEdenServer) (st : FbStatus)
    (h1 : name ≠ "honor_stop") (h2 : name ≠ "status") :
    setOption p name value server st = Except.ok (server, st) := by
  simp [setOption, h1, h2]

/-- Witness for C9 at a concrete input. -/
theorem setOption_unknown_option_noop_witness :
    ("verbosity" ≠ "honor_stop" ∧ "verbosity" ≠ "status") ∧
    setOption (fun _ => none) "verbosity" "9" ⟨true, false⟩ FbStatus.ALIVE
      = Except.ok (⟨true, false⟩, FbStatus.ALIVE) :=
  ⟨⟨by decide, by decide⟩,
   setOption_unknown_option_noop (fun _ => none) "verbosity" "9" ⟨true, false⟩
     FbStatus.ALIVE (by decide) (by decide)⟩

/-- Claim C8: the service front-end exits with code 1 on each
initialization failure (missing --edenDir, lock contention, unremovable
socket with errno other than ENOENT) and returns 0 on the success paths
(unlink succeeding, or failing with ENOENT). -/
theorem fakeMain_exit_codes (d : String) (lockOk : Bool) (e : Nat)
    (hd : d ≠ "") (he : e ≠ enoentNum) :
    fakeMain "" lockOk (some e) = 1 ∧
    fakeMain "" lockOk none = 1 ∧
    fakeMain d false none = 1 ∧
    fakeMain d false (some e) = 1 ∧
    fakeMain d true (some e) = 1 ∧
    fakeMain d true none = 0 ∧
    fakeMain d true (some enoentNum) = 0 := by
  simp [fakeMain, hd, he]

/-- Witness for C8 at a concrete input. -/
theorem fakeMain_exit_codes_witness :
    (("/tmp/eden" ≠ "") ∧ (13 ≠ enoentNum)) ∧
    fakeMain "/tmp/eden" true (some 13) = 1 :=
  ⟨⟨by decide, by decide⟩,
   (fakeMain_exit_codes "/tmp/eden" true 13 (by decide) (by decide)).2.2.2.2.1⟩

/-- Claim C10: `putBlob(id, b)` keys both the Blob write and the
BlobMetadata write by the caller-supplied `id`, even when `id` differs
from the computed sha-1 content hash; the computed content hash appears
only inside the stored metadata value, and the content-hash key is left
untouched in both key spaces. -/
theorem putBlob_keyed_by_supplied_id (s : StoreState) (id : Hash) (b : Blob)
    (hne : id.bytes ≠ sha1 b.contents) :
    (writeBatchPutBlob id b).1 =
      [(KeySpace.BlobFamily, id.bytes, gitBlobFrame b.contents),
       (KeySpace.BlobMetaDataFamily, id.bytes,
        toBE64 b.contents.length ++ sha1 b.contents)] ∧
    (∀ op ∈ (writeBatchPutBlob id b).1, op.2.1 = id.bytes) ∧
    (∀ op ∈ (writeBatchPutBlob id b).1, op.2.1 ≠ sha1 b.contents) ∧
    (writeBatchPutBlob id b).2.sha1.bytes = sha1 b.contents ∧
    storeGet (putBlob s id b).1 KeySpace.BlobFamily (sha1 b.contents)
      = storeGet s KeySpace.BlobFamily (sha1 b.contents) ∧
    storeGet (putBlob s id b).1 KeySpace.BlobMetaDataFamily (sha1 b.contents)
      = storeGet s KeySpace.BlobMetaDataFamily (sha1 b.contents) := by
  have hops : (writeBatchPutBlob id b).1 =
      [(KeySpace.BlobFamily, id.bytes, gitBlobFrame b.contents),
       (KeySpace.BlobMetaDataFamily, id.bytes,
        toBE64 b.contents.length ++ sha1 b.contents)] := rfl
  have hk : sha1 b.contents ≠ id.bytes := fun h => hne h.symm
  refine ⟨hops, ?_, ?_, rfl, ?_, ?_⟩
  · intro op hop
    rw [hops] at hop
    rcases List.mem_cons.mp hop with h | hop
    · subst h; rfl
    · rcases List.mem_cons.mp hop with h | hop
      · subst h; rfl
      · simp at hop
  · intro op hop
    rw [hops] at hop
    rcases List.mem_cons.mp hop with h | hop
    · subst h; exact hne
    · rcases List.mem_cons.mp hop with h | hop
      · subst h; exact hne
      · simp at hop
  · show storeGet (applyBatch s (writeBatchPutBlob id b).1) KeySpace.BlobFamily
      (sha1 b.contents) = _
    simp [writeBatchPutBlob, applyBatch, storeGet, storePut, hk]
  · show storeGet (applyBatch s (writeBatchPutBlob id b).1) KeySpace.BlobMetaDataFamily
      (sha1 b.contents) = _
    simp [writeBatchPutBlob, applyBatch, storeGet, storePut, hk]

/-- Witness for C10 at a concrete input. -/
theorem putBlob_keyed_by_supplied_id_witness :
    ((⟨[1]⟩ : Hash).bytes ≠ sha1 ([] : List Nat)) ∧
    (∀ op ∈ (writeBatchPutBlob ⟨[1]⟩ ⟨Hash.zero, []⟩).1, op.2.1 = (⟨[1]⟩ : Hash).bytes) :=
  ⟨by decide,
   (putBlob_keyed_by_supplied_id emptyStore ⟨[1]⟩ ⟨Hash.zero, []⟩ (by decide)).2.1⟩

end EdenModel
